import Mathlib

/-!
Verification of the grid rasterization subsystem of kwave/utils/maputils.py:
makeCircle, makeLine, makeArc (infinite radius), makeDisc, createPixelDim and
makeCartCircle.  Grids are modelled as the finite set of 0-based cell indices
holding the value 1 (every write in the source stores the same magnitude 1, so
a grid is determined by its set of written cells).  A numpy write at an index
pair (i, j) with -N <= i < N stores at the wrapped position (i mod N); all the
executions analysed below stay in that range, so writes are modelled with the
euclidean remainder.  Exact integer and rational arithmetic stands in for
float arithmetic; quantities that are genuinely real (angles, square roots,
arctangents) are kept in the reals and the code paths that branch on them are
modelled as relations on states instead of boolean tests.
-/

/-- Decidable equality on Except values, so concrete runs can be settled with
decide. -/
def exceptDecEq {α β : Type} [DecidableEq α] [DecidableEq β] :
    (a b : Except α β) → Decidable (a = b)
  | .ok x, .ok y =>
    if h : x = y then .isTrue (by rw [h]) else .isFalse (fun hc => by cases hc; exact h rfl)
  | .error x, .error y =>
    if h : x = y then .isTrue (by rw [h]) else .isFalse (fun hc => by cases hc; exact h rfl)
  | .ok _, .error _ => .isFalse (fun hc => by cases hc)
  | .error _, .ok _ => .isFalse (fun hc => by cases hc)

instance {α β : Type} [DecidableEq α] [DecidableEq β] : DecidableEq (Except α β) :=
  exceptDecEq

/-- np.arange(a, b, 1) on integer-valued endpoints: the list a, a+1, ... up to
but excluding b; empty when b <= a (in particular the step is always +1, as in
the source). -/
def aranges (a b : ℤ) : List ℤ :=
  (List.range (b - a).toNat).map (fun i => a + (i : ℤ))

/-- createPixelDim from makePixelMap.  All values are integers whenever the
parity guard of the taken branch holds (even Nx in the first branch, odd Nx in
the second), so the float vector of the source is modelled over ℤ.  The second
half of the double-origin concatenations uses np.arange with step +1 exactly
as in the source. -/
def createPixelDim (Nx : ℤ) (origin_size : String) (shift : ℤ) : List ℤ :=
  if Nx % 2 = 0 then
    if origin_size = "single" then
      if shift = 1 then aranges (-(Nx / 2)) (Nx / 2 - 1 + 1)
      else aranges (-(Nx / 2) + 1) (Nx / 2 + 1)
    else
      aranges (-(Nx / 2) + 1) (0 + 1) ++ aranges 0 (-(Nx / 2) - 1 + 1)
  else
    if origin_size = "single" then
      aranges (-((Nx - 1) / 2)) ((Nx - 1) / 2 + 1)
    else
      if shift = 1 then
        aranges (-((Nx - 1) / 2)) (0 + 1) ++ aranges 0 ((Nx - 1) / 2 - 1 + 1)
      else
        aranges (-((Nx - 1) / 2) + 1) (0 + 1) ++ aranges 0 ((Nx - 1) / 2 + 1)

/-- Justification for the square-root elimination used in makeDisc below:
for a nonnegative squared distance s, sqrt s <= radius holds exactly when
radius is nonnegative and s <= radius^2. -/
theorem sqrt_le_iff_sq_le (s : ℝ) (r : ℝ) (hs : 0 ≤ s) :
    Real.sqrt s ≤ r ↔ 0 ≤ r ∧ s ≤ r ^ 2 := by
  constructor
  · intro h
    have h0 : 0 ≤ r := le_trans (Real.sqrt_nonneg s) h
    refine ⟨h0, ?_⟩
    have := mul_self_le_mul_self (Real.sqrt_nonneg s) h
    rwa [Real.mul_self_sqrt hs, ← pow_two] at this
  · rintro ⟨h0, h⟩
    calc Real.sqrt s ≤ Real.sqrt (r ^ 2) := Real.sqrt_le_sqrt h
    _ = r := by rw [pow_two, Real.sqrt_mul_self h0]

/-- makeDisc: threshold of the single-origin, shift-0 pixel map at the given
radius, then np.roll by (cx - ceil(Nx/2), cy - ceil(Ny/2)).  The radius is
modelled as an integer (every call analysed here uses one); the comparison
sqrt(nx_i^2 + ny_j^2) <= radius of the source is rendered with squares, which
is equivalent by sqrt_le_iff_sq_le.  ceil(N/2) is -((-N).fdiv 2), and np.roll
moves the cell at index p to (p + shift) mod N.  The result is the set of
0-based indices holding a 1, or the message of the failed assert. -/
def makeDisc (Nx Ny cx cy radius : ℤ) : Except String (Finset (ℤ × ℤ)) :=
  let cx := if cx = 0 then Nx.fdiv 2 + 1 else cx
  let cy := if cy = 0 then Ny.fdiv 2 + 1 else cy
  if (0 ≤ cx ∧ cx < Nx) ∧ (0 ≤ cy ∧ cy < Ny) then
    let nx := createPixelDim Nx "single" 0
    let ny := createPixelDim Ny "single" 0
    let idx : List (ℤ × ℤ) :=
      (List.range Nx.toNat).flatMap (fun i => (List.range Ny.toNat).map (fun j => ((i : ℤ), (j : ℤ))))
    let disc0 : List (ℤ × ℤ) :=
      idx.filter (fun ij => decide (0 ≤ radius ∧
          (nx.getD ij.1.toNat 0) ^ 2 + (ny.getD ij.2.toNat 0) ^ 2 ≤ radius ^ 2))
    let sx := cx - (-((-Nx).fdiv 2))
    let sy := cy - (-((-Ny).fdiv 2))
    Except.ok ((disc0.map (fun p => ((p.1 + sx) % Nx, (p.2 + sy) % Ny))).toFinset)
  else Except.error "Disc center must be within grid."

/-- makeCartCircle, reduced to its angle computation.  Every produced angle is
a rational multiple of pi once the arc angle is one, so the arc angle is
passed as the coefficient q with arc_angle = q * pi (full circle iff q = 2,
see cart_full_circle_iff) and the function returns the list of coefficients
c_i with angles_i = c_i * pi (the pi/2 offset is the coefficient 1/2).  The
Cartesian output of the source applies radius*cos / radius*sin(-.) pointwise
to these angles and shifts by the centre; the division by num_points performed
by the source is modelled as an error when num_points is zero at that point. -/
def makeCartCircleAngles (radius : ℚ) (num_points : ℤ) (center : ℚ × ℚ) (q : ℚ) :
    Except String (List ℚ) :=
  let n := if q = 2 then num_points else num_points - 1
  if n = 0 then Except.error "division by zero in angle step"
  else
    let angles := (List.range (n + 1).toNat).map (fun i => (i : ℚ) * q / (n : ℚ) + 1 / 2)
    Except.ok (if q = 2 then angles.dropLast else angles)

/-- The encoding of full_circle used above is faithful: q * pi equals 2 * pi
exactly when q = 2. -/
theorem cart_full_circle_iff (q : ℚ) : (q : ℝ) * Real.pi = 2 * Real.pi ↔ q = 2 := by
  constructor
  · intro h
    have h2 : (q : ℝ) = 2 := mul_right_cancel₀ Real.pi_ne_zero h
    exact_mod_cast h2
  · intro h; rw [h]; norm_num

/-! ## makeCircle: midpoint circle algorithm with arc clipping -/

/-- Loop state of the midpoint circle algorithm: x, y and the decision
variable d. -/
structure MidState where
  x : ℤ
  y : ℤ
  d : ℤ
  deriving DecidableEq, Repr

/-- One iteration of the midpoint loop body: x is incremented, then d (and
possibly y) are updated exactly as in the source (the updates read the already
incremented x). -/
def midStep (s : MidState) : MidState :=
  if s.d < 0 then ⟨s.x + 1, s.y, s.d + (s.x + 1) + (s.x + 1) + 1⟩
  else ⟨s.x + 1, s.y - 1, s.d + ((s.x + 1) - (s.y - 1) + 1) + ((s.x + 1) - (s.y - 1) + 1)⟩

/-- The eight symmetric offsets plotted per iteration, in the order of the
px/py lists of the source (px offset first, py offset second). -/
def octOffsets (x y : ℤ) : List (ℤ × ℤ) :=
  [(x, y), (y, x), (y, -x), (x, -y), (-x, -y), (-y, -x), (-y, x), (-x, y)]

/-- All offsets emitted by the while loop of makeCircle, starting from state
s: while x < y - 1, step and emit the eight offsets of the new state. -/
def midLoop (s : MidState) : List (ℤ × ℤ) :=
  if h : s.x < s.y - 1 then
    octOffsets (midStep s).x (midStep s).y ++ midLoop (midStep s)
  else []
termination_by (s.y - 1 - s.x).toNat
decreasing_by
  simp only [midStep]
  split <;> dsimp only <;> omega

/-- The in-grid test applied to every candidate point of makeCircle:
1 <= px <= Nx and 1 <= py <= Ny, in 1-based coordinates. -/
def InBounds (Nx Ny px py : ℤ) : Prop :=
  1 ≤ px ∧ px ≤ Nx ∧ 1 ≤ py ∧ py ≤ Ny

instance (Nx Ny px py : ℤ) : Decidable (InBounds Nx Ny px py) := by
  unfold InBounds; infer_instance

/-- The arc filter of makeCircle: np.arctan2(dx, dy) + pi <= arc.  The two
argument atan2 with arguments (dx, dy) is the argument of the complex number
dy + dx*i; for the integer arguments occurring here the conventions agree
(range (-pi, pi], value pi on the negative real axis, 0 at the origin). -/
def angleOK (arc : ℝ) (dx dy : ℤ) : Prop :=
  Complex.arg ((dy : ℂ) + (dx : ℂ) * Complex.I) + Real.pi ≤ arc

/-- The clamping of arc_angle at the top of makeCircle (None, the default,
stands for 2*pi and is passed as such by the callers modelled here): values
above 2*pi are clamped to 2*pi, negative values to 0. -/
def ClampArc (a r : ℝ) : Prop :=
  (a > 2 * Real.pi ∧ r = 2 * Real.pi) ∨
  (¬ a > 2 * Real.pi ∧ a < 0 ∧ r = 0) ∨
  (¬ a > 2 * Real.pi ∧ ¬ a < 0 ∧ r = a)

/-- The zero-centre substitution applied by makeCircle, makeDisc and makeBall:
a centre coordinate of 0 stands for floor(N/2) + 1. -/
def centerOr (c N : ℤ) : ℤ :=
  if c = 0 then N.fdiv 2 + 1 else c

/-- The set of cells written by makeCircle, with the centre already
substituted and the arc angle already clamped; (px, py) is a 1-based
coordinate pair.  The three disjuncts are the three write sites of the
source: the initial point (cx, cy - radius), guarded only by the in-grid
test; the remaining cardinal points (cx, cy + radius), (cx + radius, cy),
(cx - radius, cy), guarded by the arc filter and the in-grid test; and the
eight-way symmetric points of the while loop, guarded the same way. -/
def makeCircleSet (Nx Ny cx cy radius : ℤ) (arc : ℝ) (px py : ℤ) : Prop :=
  (px = cx ∧ py = cy - radius ∧ InBounds Nx Ny px py) ∨
  ((px, py) ∈ ([(cx, cy + radius), (cx + radius, cy), (cx - radius, cy)] : List (ℤ × ℤ)) ∧
    angleOK arc (px - cx) (py - cy) ∧ InBounds Nx Ny px py) ∨
  ((px - cx, py - cy) ∈ midLoop ⟨0, radius, 1 - radius⟩ ∧
    angleOK arc (px - cx) (py - cy) ∧ InBounds Nx Ny px py)

/-- makeCircle: (px, py) is a written cell of makeCircle(Nx, Ny, cx, cy,
radius, arc0), in 1-based coordinates (the source stores it at the 0-based
index (px - 1, py - 1)). -/
def makeCircle (Nx Ny cx cy radius : ℤ) (arc0 : ℝ) (px py : ℤ) : Prop :=
  ∃ arc, ClampArc arc0 arc ∧
    makeCircleSet Nx Ny (centerOr cx Nx) (centerOr cy Ny) radius arc px py


/-- Membership in the eight-offset list, factored by signs and swapping. -/
theorem mem_octOffsets_iff {x y a b : ℤ} :
    (a, b) ∈ octOffsets x y ↔
      ((a = x ∨ a = -x) ∧ (b = y ∨ b = -y)) ∨
      ((a = y ∨ a = -y) ∧ (b = x ∨ b = -x)) := by
  simp only [octOffsets, List.mem_cons, List.not_mem_nil, or_false, Prod.mk.injEq]
  tauto

/-- The eight-offset list of any of its members is contained in the original
eight-offset list. -/
theorem orbit_trans {x y : ℤ} {o p : ℤ × ℤ} (h1 : o ∈ octOffsets x y)
    (h2 : p ∈ octOffsets o.1 o.2) : p ∈ octOffsets x y := by
  obtain ⟨a, b⟩ := o
  obtain ⟨c, d⟩ := p
  simp only at h2
  rw [mem_octOffsets_iff] at h1 h2
  rcases h2 with ⟨(rfl | rfl), (rfl | rfl)⟩ | ⟨(rfl | rfl), (rfl | rfl)⟩ <;>
    rcases h1 with ⟨(rfl | rfl), (rfl | rfl)⟩ | ⟨(rfl | rfl), (rfl | rfl)⟩ <;>
    simp [octOffsets]

theorem midStep_x (s : MidState) : (midStep s).x = s.x + 1 := by
  simp only [midStep]; split <;> rfl

theorem midStep_y (s : MidState) : (midStep s).y = s.y ∨ (midStep s).y = s.y - 1 := by
  simp only [midStep]; split
  · exact Or.inl rfl
  · exact Or.inr rfl

/-- Every offset emitted by the midpoint loop from a state with
0 <= x <= y has both coordinates of magnitude at most y. -/
theorem midLoop_mem_le : ∀ (n : ℕ) (s : MidState), (s.y - 1 - s.x).toNat = n →
    0 ≤ s.x → s.x ≤ s.y → ∀ o ∈ midLoop s, |o.1| ≤ s.y ∧ |o.2| ≤ s.y := by
  intro n
  induction n using Nat.strong_induction_on with
  | _ n ih =>
    intro s hn hx hxy o ho
    rw [midLoop] at ho
    split_ifs at ho with h
    · have hx2 : (midStep s).x = s.x + 1 := midStep_x s
      have hy2 := midStep_y s
      have hxa : |(midStep s).x| ≤ s.y := by
        rw [abs_of_nonneg (by omega : (0:ℤ) ≤ (midStep s).x)]
        rcases hy2 with h2 | h2 <;> omega
      have hya : |(midStep s).y| ≤ s.y := by
        rw [abs_of_nonneg (by rcases hy2 with h2 | h2 <;> omega : (0:ℤ) ≤ (midStep s).y)]
        rcases hy2 with h2 | h2 <;> omega
      rcases List.mem_append.1 ho with ho | ho
      · obtain ⟨a, b⟩ := o
        rw [mem_octOffsets_iff] at ho
        rcases ho with ⟨(rfl | rfl), (rfl | rfl)⟩ | ⟨(rfl | rfl), (rfl | rfl)⟩ <;>
          simp only [abs_neg] <;>
          exact ⟨by first | exact hxa | exact hya, by first | exact hxa | exact hya⟩
      · have hmeas : ((midStep s).y - 1 - (midStep s).x).toNat < n := by
          rcases hy2 with h2 | h2 <;> omega
        have hrec := ih _ hmeas (midStep s) rfl (by omega)
          (by rcases hy2 with h2 | h2 <;> omega) o ho
        have h3 : (midStep s).y ≤ s.y := by rcases hy2 with h2 | h2 <;> omega
        exact ⟨le_trans hrec.1 h3, le_trans hrec.2 h3⟩
    · simp at ho

/-- The offset list emitted by the midpoint loop is closed under the eight
reflections: with any member it contains the whole eight-offset list of that
member. -/
theorem midLoop_orbit : ∀ (n : ℕ) (s : MidState), (s.y - 1 - s.x).toNat = n →
    ∀ o ∈ midLoop s, ∀ p ∈ octOffsets o.1 o.2, p ∈ midLoop s := by
  intro n
  induction n using Nat.strong_induction_on with
  | _ n ih =>
    intro s hn o ho p hp
    rw [midLoop] at ho ⊢
    split_ifs at ho ⊢ with h
    · rcases List.mem_append.1 ho with ho | ho
      · exact List.mem_append.2 (Or.inl (orbit_trans ho hp))
      · have hx2 : (midStep s).x = s.x + 1 := midStep_x s
        have hy2 := midStep_y s
        have hmeas : ((midStep s).y - 1 - (midStep s).x).toNat < n := by
          rcases hy2 with h2 | h2 <;> omega
        exact List.mem_append.2 (Or.inr (ih _ hmeas (midStep s) rfl o ho p hp))
    · simp at ho

/-- All candidate offsets of makeCircle for a given radius: the initial and
cardinal offsets (the eight-offset list of (0, radius), which as a set is
exactly those four points) together with the offsets of the while loop. -/
def allOffsets (r : ℤ) : List (ℤ × ℤ) :=
  octOffsets 0 r ++ midLoop ⟨0, r, 1 - r⟩

/-- allOffsets is closed under the eight reflections. -/
theorem allOffsets_orbit {r : ℤ} {o p : ℤ × ℤ} (ho : o ∈ allOffsets r)
    (hp : p ∈ octOffsets o.1 o.2) : p ∈ allOffsets r := by
  rcases List.mem_append.1 ho with ho | ho
  · exact List.mem_append.2 (Or.inl (orbit_trans ho hp))
  · exact List.mem_append.2 (Or.inr (midLoop_orbit _ _ rfl o ho p hp))

/-- Every candidate offset has both coordinates of magnitude at most the
radius (for a nonnegative radius). -/
theorem allOffsets_le {r : ℤ} (hr : 0 ≤ r) {o : ℤ × ℤ} (ho : o ∈ allOffsets r) :
    |o.1| ≤ r ∧ |o.2| ≤ r := by
  rcases List.mem_append.1 ho with ho | ho
  · obtain ⟨a, b⟩ := o
    rw [mem_octOffsets_iff] at ho
    have h0 : |(0:ℤ)| ≤ r := by simpa using hr
    have h1 : |r| ≤ r := le_of_eq (abs_of_nonneg hr)
    rcases ho with ⟨(rfl | rfl), (rfl | rfl)⟩ | ⟨(rfl | rfl), (rfl | rfl)⟩ <;>
      simp only [abs_neg] <;>
      exact ⟨by first | exact h0 | exact h1, by first | exact h0 | exact h1⟩
  · exact midLoop_mem_le _ ⟨0, r, 1 - r⟩ rfl (le_refl 0) hr o ho

/-- At full aperture the arc filter accepts every point: atan2 never exceeds
pi, so atan2 + pi <= 2 pi. -/
theorem angleOK_two_pi (dx dy : ℤ) : angleOK (2 * Real.pi) dx dy := by
  unfold angleOK
  have := Complex.arg_le_pi ((dy : ℂ) + (dx : ℂ) * Complex.I)
  linarith

/-- The clamp relation is a function. -/
theorem clampArc_unique {a r r' : ℝ} (h : ClampArc a r) (h' : ClampArc a r') : r = r' := by
  rcases h with ⟨h1, rfl⟩ | ⟨h1, h2, rfl⟩ | ⟨h1, h2, rfl⟩ <;>
    rcases h' with ⟨h1', rfl⟩ | ⟨h1', h2', rfl⟩ | ⟨h1', h2', rfl⟩ <;>
    first
      | rfl
      | (exact absurd h1 h1')
      | (exact absurd h1' h1)
      | (exact absurd h2 h2')
      | (exact absurd h2' h2)

/-- 2 pi clamps to itself. -/
theorem clampArc_two_pi : ClampArc (2 * Real.pi) (2 * Real.pi) :=
  Or.inr (Or.inr ⟨lt_irrefl _, by have := Real.pi_pos; intro h; linarith, rfl⟩)

/-- 0 clamps to itself. -/
theorem clampArc_zero : ClampArc 0 0 :=
  Or.inr (Or.inr ⟨by have := Real.pi_pos; intro h; linarith, lt_irrefl _, rfl⟩)

/-- At full aperture, makeCircleSet marks exactly the in-grid points whose
offset from the centre is a candidate offset. -/
theorem makeCircleSet_full_iff (Nx Ny cx cy r px py : ℤ) :
    makeCircleSet Nx Ny cx cy r (2 * Real.pi) px py ↔
      ((px - cx, py - cy) ∈ allOffsets r ∧ InBounds Nx Ny px py) := by
  constructor
  · rintro (⟨rfl, rfl, hb⟩ | ⟨hm, _, hb⟩ | ⟨hm, _, hb⟩)
    · refine ⟨List.mem_append.2 (Or.inl ?_), hb⟩
      simp [octOffsets]
    · refine ⟨List.mem_append.2 (Or.inl ?_), hb⟩
      simp only [List.mem_cons, List.not_mem_nil, or_false, Prod.mk.injEq] at hm
      rcases hm with ⟨rfl, rfl⟩ | ⟨rfl, rfl⟩ | ⟨rfl, rfl⟩ <;> simp [octOffsets]
    · exact ⟨List.mem_append.2 (Or.inr hm), hb⟩
  · rintro ⟨hm, hb⟩
    rcases List.mem_append.1 hm with hm | hm
    · rw [mem_octOffsets_iff] at hm
      rcases hm with ⟨(h1 | h1), (h2 | h2)⟩ | ⟨(h1 | h1), (h2 | h2)⟩
      · refine Or.inr (Or.inl ⟨?_, angleOK_two_pi _ _, hb⟩)
        simp only [List.mem_cons, Prod.mk.injEq]
        exact Or.inl ⟨by omega, by omega⟩
      · exact Or.inl ⟨by omega, by omega, hb⟩
      · refine Or.inr (Or.inl ⟨?_, angleOK_two_pi _ _, hb⟩)
        simp only [List.mem_cons, Prod.mk.injEq]
        exact Or.inl ⟨by omega, by omega⟩
      · exact Or.inl ⟨by omega, by omega, hb⟩
      · refine Or.inr (Or.inl ⟨?_, angleOK_two_pi _ _, hb⟩)
        simp only [List.mem_cons, Prod.mk.injEq]
        exact Or.inr (Or.inl ⟨by omega, by omega⟩)
      · refine Or.inr (Or.inl ⟨?_, angleOK_two_pi _ _, hb⟩)
        simp only [List.mem_cons, Prod.mk.injEq]
        exact Or.inr (Or.inl ⟨by omega, by omega⟩)
      · refine Or.inr (Or.inl ⟨?_, angleOK_two_pi _ _, hb⟩)
        simp only [List.mem_cons, Prod.mk.injEq]
        exact Or.inr (Or.inr (Or.inl ⟨by omega, by omega⟩))
      · refine Or.inr (Or.inl ⟨?_, angleOK_two_pi _ _, hb⟩)
        simp only [List.mem_cons, Prod.mk.injEq]
        exact Or.inr (Or.inr (Or.inl ⟨by omega, by omega⟩))
    · exact Or.inr (Or.inr ⟨hm, angleOK_two_pi _ _, hb⟩)

/-- The cell (4, 2) is written by makeCircle(7, 7, 4, 4, 2, arc_angle = 0): it
is the initial point (cx, cy - radius), which the source writes after the
in-grid check only. -/
theorem makeCircle_c1_point : makeCircle 7 7 4 4 2 0 4 2 := by
  refine ⟨0, clampArc_zero, ?_⟩
  have h4 : centerOr 4 7 = (4 : ℤ) := by decide
  rw [h4]
  exact Or.inl ⟨rfl, by norm_num, by decide⟩

/-- C1 counterexample: with arc_angle 0 (clamped to 0) the initial point
(cx, cy - radius) = (4, 2) is written although its angle filter
atan2(dx, dy) + pi <= arc fails there (atan2(0, -2) + pi = 2 pi > 0), so not
every written candidate passes both filters. -/
theorem C1_counterexample :
    makeCircle 7 7 4 4 2 0 4 2 ∧ ClampArc 0 0 ∧
      ¬ angleOK 0 ((4 : ℤ) - centerOr 4 7) ((2 : ℤ) - centerOr 4 7) := by
  refine ⟨makeCircle_c1_point, clampArc_zero, ?_⟩
  have h4 : centerOr 4 7 = (4 : ℤ) := by decide
  rw [h4]
  unfold angleOK
  intro h
  rw [show ((((2 : ℤ) - 4 : ℤ) : ℂ) + (((4 : ℤ) - 4 : ℤ) : ℂ) * Complex.I) = ((-2 : ℝ) : ℂ) by
    push_cast; ring] at h
  rw [Complex.arg_ofReal_of_neg (by norm_num)] at h
  have := Real.pi_pos
  linarith

/-- C1 (amended): every cell written by makeCircle lies inside the grid, and
every written cell is either the initial point (cx, cy - radius), which the
source filters by bounds only, or passes the arc angle filter as well. -/
theorem C1_circle_filters (Nx Ny cx cy radius : ℤ) (arc0 : ℝ) (px py : ℤ)
    (h : makeCircle Nx Ny cx cy radius arc0 px py) :
    InBounds Nx Ny px py ∧
      ∀ arc, ClampArc arc0 arc →
        ((px = centerOr cx Nx ∧ py = centerOr cy Ny - radius) ∨
          angleOK arc (px - centerOr cx Nx) (py - centerOr cy Ny)) := by
  obtain ⟨arc1, hc1, hset⟩ := h
  constructor
  · rcases hset with ⟨_, _, hb⟩ | ⟨_, _, hb⟩ | ⟨_, _, hb⟩ <;> exact hb
  · intro arc hc
    rw [clampArc_unique hc hc1]
    rcases hset with ⟨h1, h2, _⟩ | ⟨_, ha, _⟩ | ⟨_, ha, _⟩
    · exact Or.inl ⟨h1, h2⟩
    · exact Or.inr ha
    · exact Or.inr ha

/-- C1 witness: the amended statement at the concrete written cell (4, 2) of
makeCircle(7, 7, 4, 4, 2, 0). -/
theorem C1_witness :
    InBounds 7 7 4 2 ∧
      ∀ arc, ClampArc 0 arc →
        (((4 : ℤ) = centerOr 4 7 ∧ (2 : ℤ) = centerOr 4 7 - 2) ∨
          angleOK arc ((4 : ℤ) - centerOr 4 7) ((2 : ℤ) - centerOr 4 7)) :=
  C1_circle_filters 7 7 4 4 2 0 4 2 makeCircle_c1_point

/-- C5 (confirmed): when the full circle of radius r about (cx, cy) lies
inside the grid, the set of cells marked by makeCircle at full aperture
(arc_angle = 2 pi) is symmetric under the eight reflections about the
centre. -/
theorem C5_eight_way (Nx Ny cx cy r dx dy : ℤ)
    (hr : 0 ≤ r) (h1 : 1 ≤ cx - r) (h2 : cx + r ≤ Nx) (h3 : 1 ≤ cy - r) (h4 : cy + r ≤ Ny)
    (h : makeCircle Nx Ny cx cy r (2 * Real.pi) (cx + dx) (cy + dy)) :
    makeCircle Nx Ny cx cy r (2 * Real.pi) (cx - dx) (cy + dy) ∧
    makeCircle Nx Ny cx cy r (2 * Real.pi) (cx + dx) (cy - dy) ∧
    makeCircle Nx Ny cx cy r (2 * Real.pi) (cx - dx) (cy - dy) ∧
    makeCircle Nx Ny cx cy r (2 * Real.pi) (cx + dy) (cy + dx) ∧
    makeCircle Nx Ny cx cy r (2 * Real.pi) (cx - dy) (cy + dx) ∧
    makeCircle Nx Ny cx cy r (2 * Real.pi) (cx + dy) (cy - dx) ∧
    makeCircle Nx Ny cx cy r (2 * Real.pi) (cx - dy) (cy - dx) := by
  have hcx : centerOr cx Nx = cx := by unfold centerOr; rw [if_neg]; omega
  have hcy : centerOr cy Ny = cy := by unfold centerOr; rw [if_neg]; omega
  obtain ⟨arc1, hc1, hset⟩ := h
  have harc : arc1 = 2 * Real.pi := clampArc_unique hc1 clampArc_two_pi
  subst harc
  rw [hcx, hcy, makeCircleSet_full_iff] at hset
  obtain ⟨hmem, _⟩ := hset
  rw [show cx + dx - cx = dx by ring, show cy + dy - cy = dy by ring] at hmem
  have mark : ∀ a b : ℤ, (a, b) ∈ octOffsets dx dy →
      makeCircle Nx Ny cx cy r (2 * Real.pi) (cx + a) (cy + b) := by
    intro a b hab
    have hmem2 : ((a : ℤ), (b : ℤ)) ∈ allOffsets r := allOffsets_orbit hmem hab
    have hband := allOffsets_le hr hmem2
    simp only at hband
    have hba := abs_le.1 hband.1
    have hbb := abs_le.1 hband.2
    refine ⟨2 * Real.pi, clampArc_two_pi, ?_⟩
    rw [hcx, hcy, makeCircleSet_full_iff,
      show cx + a - cx = a by ring, show cy + b - cy = b by ring]
    exact ⟨hmem2, by omega, by omega, by omega, by omega⟩
  have m1 := mark (-dx) dy (by rw [mem_octOffsets_iff]; tauto)
  have m2 := mark dx (-dy) (by rw [mem_octOffsets_iff]; tauto)
  have m3 := mark (-dx) (-dy) (by rw [mem_octOffsets_iff]; tauto)
  have m4 := mark dy dx (by rw [mem_octOffsets_iff]; tauto)
  have m5 := mark (-dy) dx (by rw [mem_octOffsets_iff]; tauto)
  have m6 := mark dy (-dx) (by rw [mem_octOffsets_iff]; tauto)
  have m7 := mark (-dy) (-dx) (by rw [mem_octOffsets_iff]; tauto)
  rw [show cx + -dx = cx - dx by ring] at m1 m3
  rw [show cy + -dy = cy - dy by ring] at m2 m3
  rw [show cx + -dy = cx - dy by ring] at m5 m7
  rw [show cy + -dx = cy - dx by ring] at m6 m7
  exact ⟨m1, m2, m3, m4, m5, m6, m7⟩

/-- The cell (4, 2) is also written at full aperture (initial point of the
radius-2 circle about (4, 4)), stated with the offset decomposition
(4 + 0, 4 + (-2)) used by the C5 witness. -/
theorem makeCircle_c5_point : makeCircle 7 7 4 4 2 (2 * Real.pi) (4 + 0) (4 + -2) := by
  refine ⟨2 * Real.pi, clampArc_two_pi, ?_⟩
  have h4 : centerOr 4 7 = (4 : ℤ) := by decide
  rw [h4]
  exact Or.inl ⟨by norm_num, by norm_num, by norm_num [InBounds]⟩

/-- C5 witness: the eight-way symmetry applied to the concrete circle
makeCircle(7, 7, 4, 4, 2) at the marked cell with offset (0, -2). -/
theorem C5_witness :
    makeCircle 7 7 4 4 2 (2 * Real.pi) (4 - 0) (4 + -2) ∧
    makeCircle 7 7 4 4 2 (2 * Real.pi) (4 + 0) (4 - -2) ∧
    makeCircle 7 7 4 4 2 (2 * Real.pi) (4 - 0) (4 - -2) ∧
    makeCircle 7 7 4 4 2 (2 * Real.pi) (4 + -2) (4 + 0) ∧
    makeCircle 7 7 4 4 2 (2 * Real.pi) (4 - -2) (4 + 0) ∧
    makeCircle 7 7 4 4 2 (2 * Real.pi) (4 + -2) (4 - 0) ∧
    makeCircle 7 7 4 4 2 (2 * Real.pi) (4 - -2) (4 - 0) :=
  C5_eight_way 7 7 4 4 2 0 (-2) (by norm_num) (by norm_num) (by norm_num)
    (by norm_num) (by norm_num) makeCircle_c5_point

/-! ## makeLine, point-to-point mode -/

/-- Index of the first minimum of a list of rationals: the source computes
matlab_find(diff == min(diff))[0] (1-based) and immediately subtracts 1, so
the selected candidate index is the 0-based first position of the minimal
difference. -/
def firstMinIdx : List ℚ → ℕ
  | [] => 0
  | _ :: [] => 0
  | a :: b :: l =>
    if a ≤ (b :: l).getD (firstMinIdx (b :: l)) 0 then 0 else firstMinIdx (b :: l) + 1

theorem firstMinIdx_single (a : ℚ) : firstMinIdx [a] = 0 := rfl

theorem firstMinIdx_cons (a b : ℚ) (l : List ℚ) :
    firstMinIdx (a :: b :: l) =
      if a ≤ (b :: l).getD (firstMinIdx (b :: l)) 0 then 0 else firstMinIdx (b :: l) + 1 := rfl

/-- A numpy store at 0-based index (i, j): indices in [-N, 0) wrap to the end
of the axis, which the euclidean remainder renders; every run analysed here
stays in the valid numpy range [-N, N). -/
def insertCell (Nx Ny x y : ℤ) (g : Finset (ℤ × ℤ)) : Finset (ℤ × ℤ) :=
  insert (x % Nx, y % Ny) g

/-- The squared deviations (poss_y - (m * poss_x + c))^2 of the five
candidates of the shallow-gradient branch, in source order. -/
def abDiffX (m c : ℚ) (x y : ℤ) : List ℚ :=
  List.zipWith (fun xi yi => ((yi : ℚ) - (m * (xi : ℚ) + c)) ^ 2)
    [x, x, x + 1, x + 1, x + 1] [y - 1, y + 1, y - 1, y, y + 1]

/-- The shallow-gradient loop of the two-point mode (abs m < 1).  The source
walks x from the smaller-x endpoint, picks among the five candidates
(x, y-1), (x, y+1), (x+1, y-1), (x+1, y), (x+1, y+1) the first whose y is
closest to the line, and then stores at line[x - 1, y - 1]: one index below
the 0-based candidate, so a candidate with y = 0 wraps to the last column.
The while loop is run on explicit fuel; every execution settled below
terminates well within the fuel given to it by makeLineAB. -/
def loopX : (fuel : ℕ) → (m c : ℚ) → (Nx Ny x y xend : ℤ) → Finset (ℤ × ℤ) → Finset (ℤ × ℤ)
  | 0, _, _, _, _, _, _, _, g => g
  | f + 1, m, c, Nx, Ny, x, y, xend, g =>
    if x < xend then
      let px : List ℤ := [x, x, x + 1, x + 1, x + 1]
      let py : List ℤ := [y - 1, y + 1, y - 1, y, y + 1]
      let i := firstMinIdx (abDiffX m c x y)
      loopX f m c Nx Ny (px.getD i 0) (py.getD i 0) xend
        (insertCell Nx Ny (px.getD i 0 - 1) (py.getD i 0 - 1) g)
    else g

/-- The squared deviations (poss_x - (poss_y - c) / m)^2 of the five
candidates of the steep-gradient branch, in source order. -/
def abDiffY (m c : ℚ) (x y : ℤ) : List ℚ :=
  List.zipWith (fun xi yi => ((xi : ℚ) - ((yi : ℚ) - c) / m) ^ 2)
    [x - 1, x + 1, x - 1, x, x + 1] [y, y, y + 1, y + 1, y + 1]

/-- The steep-gradient loop of the two-point mode (abs m >= 1, m finite).  The
source walks y from the smaller-y endpoint, picks among the five candidates
(x-1, y), (x+1, y), (x-1, y+1), (x, y+1), (x+1, y+1) the first whose x is
closest to the line, and stores at line[x, y] (no index shift). -/
def loopY : (fuel : ℕ) → (m c : ℚ) → (Nx Ny x y yend : ℤ) → Finset (ℤ × ℤ) → Finset (ℤ × ℤ)
  | 0, _, _, _, _, _, _, _, g => g
  | f + 1, m, c, Nx, Ny, x, y, yend, g =>
    if y < yend then
      let py : List ℤ := [y, y, y + 1, y + 1, y + 1]
      let px : List ℤ := [x - 1, x + 1, x - 1, x, x + 1]
      let i := firstMinIdx (abDiffY m c x y)
      loopY f m c Nx Ny (px.getD i 0) (py.getD i 0) yend
        (insertCell Nx Ny (px.getD i 0) (py.getD i 0) g)
    else g

/-- The vertical loop of the two-point mode (infinite gradient): y steps from
the smaller-y endpoint to the larger, storing at line[x, y]. -/
def vertLoop (Nx Ny x y yend : ℤ) (g : Finset (ℤ × ℤ)) : Finset (ℤ × ℤ) :=
  if y < yend then vertLoop Nx Ny x (y + 1) yend (insertCell Nx Ny x (y + 1) g)
  else g
termination_by (yend - y).toNat
decreasing_by omega

/-- Gradient of the line through the 0-based points a and b, as in the
source: (b2 - a2) / (b1 - a1).  The vertical case a1 = b1 (where numpy
produces an infinite float) is dispatched before this value is used. -/
def mAB (a b : ℤ × ℤ) : ℚ :=
  ((b.2 - a.2 : ℤ) : ℚ) / ((b.1 - a.1 : ℤ) : ℚ)

/-- Intercept c = a2 - m * a1 of the line through a and b. -/
def cAB (a b : ℤ × ℤ) : ℚ :=
  ((a.2 : ℤ) : ℚ) - mAB a b * ((a.1 : ℤ) : ℚ)

/-- Fuel given to the two-point loops; every trace settled below terminates
well within it. -/
def abFuel (Nx Ny : ℤ) : ℕ :=
  (Nx + Ny).toNat + 2

/-- The two-point trace of makeLine on the already 0-based, already validated
endpoints a and b: the source computes m and c, then branches on abs m < 1
(walk along x), m finite (walk along y), or m infinite (vertical walk); this
rendering dispatches the vertical case on the denominator b1 - a1 = 0, which
is exactly when numpy produces the infinite gradient.  Each branch starts at
the endpoint with the smaller walked coordinate, marks it at line[x, y], and
walks to the larger coordinate. -/
def traceAB (Nx Ny : ℤ) (a b : ℤ × ℤ) : Finset (ℤ × ℤ) :=
  if a.1 = b.1 then
    let s := if a.2 < b.2 then a else b
    vertLoop Nx Ny s.1 s.2 (max a.2 b.2) (insertCell Nx Ny s.1 s.2 ∅)
  else if |mAB a b| < 1 then
    let s := if a.1 < b.1 then a else b
    loopX (abFuel Nx Ny) (mAB a b) (cAB a b) Nx Ny s.1 s.2 (max a.1 b.1)
      (insertCell Nx Ny s.1 s.2 ∅)
  else
    let s := if a.2 < b.2 then a else b
    loopY (abFuel Nx Ny) (mAB a b) (cAB a b) Nx Ny s.1 s.2 (max a.2 b.2)
      (insertCell Nx Ny s.1 s.2 ∅)

/-- makeLine in point-to-point mode.  The source first evaluates the
out-of-grid test on startpoint but discards the constructed ValueError
(source line 795), so that check raises nothing; the startpoint and endpoint
are then shifted to 0-based coordinates and validated: identical points and
points outside the grid raise, anything else traces the line. -/
def makeLineAB (Nx Ny : ℤ) (startpoint endpoint : ℤ × ℤ) :
    Except String (Finset (ℤ × ℤ)) :=
  let a := (startpoint.1 - 1, startpoint.2 - 1)
  let b := (endpoint.1 - 1, endpoint.2 - 1)
  if a = b then Except.error "The first and last points cannot be the same."
  else if a.1 < 0 ∨ a.2 < 0 ∨ b.1 < 0 ∨ b.2 < 0 ∨ a.1 > Nx - 1 ∨ b.1 > Nx - 1 ∨
      a.2 > Ny - 1 ∨ b.2 > Ny - 1 then
    Except.error "Both the start and end points must lie within the grid."
  else Except.ok (traceAB Nx Ny a b)

/-- A cell set is monotone in both axes when any two of its members are
comparable componentwise: the claimed property of a diagonal line. -/
def chainInBoth (s : Finset (ℤ × ℤ)) : Prop :=
  ∀ p ∈ s, ∀ q ∈ s, (p.1 ≤ q.1 ∧ p.2 ≤ q.2) ∨ (q.1 ≤ p.1 ∧ q.2 ≤ p.2)

instance (s : Finset (ℤ × ℤ)) : Decidable (chainInBoth s) := by
  unfold chainInBoth; infer_instance

theorem loopX_stop (f : ℕ) (m c : ℚ) (Nx Ny x y xend : ℤ) (g : Finset (ℤ × ℤ))
    (h : ¬ x < xend) : loopX f m c Nx Ny x y xend g = g := by
  cases f with
  | zero => rfl
  | succ f => rw [loopX, if_neg h]

/-- One unfolding of the shallow-gradient loop, with the selected candidate
supplied as explicit equations so concrete and symbolic runs can discharge
them separately. -/
theorem loopX_advance (f : ℕ) (m c : ℚ) (Nx Ny x y xend x2 y2 : ℤ) (g : Finset (ℤ × ℤ))
    (i : ℕ) (hlt : x < xend)
    (hi : firstMinIdx (abDiffX m c x y) = i)
    (hx2 : ([x, x, x + 1, x + 1, x + 1] : List ℤ).getD i 0 = x2)
    (hy2 : ([y - 1, y + 1, y - 1, y, y + 1] : List ℤ).getD i 0 = y2) :
    loopX (f + 1) m c Nx Ny x y xend g =
      loopX f m c Nx Ny x2 y2 xend (insertCell Nx Ny (x2 - 1) (y2 - 1) g) := by
  conv_lhs => rw [loopX]
  rw [if_pos hlt]
  dsimp only
  rw [hi, hx2, hy2]

theorem loopY_stop (f : ℕ) (m c : ℚ) (Nx Ny x y yend : ℤ) (g : Finset (ℤ × ℤ))
    (h : ¬ y < yend) : loopY f m c Nx Ny x y yend g = g := by
  cases f with
  | zero => rfl
  | succ f => rw [loopY, if_neg h]

/-- One unfolding of the steep-gradient loop. -/
theorem loopY_advance (f : ℕ) (m c : ℚ) (Nx Ny x y yend x2 y2 : ℤ) (g : Finset (ℤ × ℤ))
    (i : ℕ) (hlt : y < yend)
    (hi : firstMinIdx (abDiffY m c x y) = i)
    (hx2 : ([x - 1, x + 1, x - 1, x, x + 1] : List ℤ).getD i 0 = x2)
    (hy2 : ([y, y, y + 1, y + 1, y + 1] : List ℤ).getD i 0 = y2) :
    loopY (f + 1) m c Nx Ny x y yend g =
      loopY f m c Nx Ny x2 y2 yend (insertCell Nx Ny x2 y2 g) := by
  conv_lhs => rw [loopY]
  rw [if_pos hlt]
  dsimp only
  rw [hi, hx2, hy2]

theorem vertLoop_stop (Nx Ny x y yend : ℤ) (g : Finset (ℤ × ℤ)) (h : ¬ y < yend) :
    vertLoop Nx Ny x y yend g = g := by
  rw [vertLoop, if_neg h]

theorem vertLoop_step (Nx Ny x y yend : ℤ) (g : Finset (ℤ × ℤ)) (h : y < yend) :
    vertLoop Nx Ny x y yend g = vertLoop Nx Ny x (y + 1) yend (insertCell Nx Ny x (y + 1) g) := by
  conv_lhs => rw [vertLoop]
  rw [if_pos h]

theorem abDiffY_diag (k : ℤ) : abDiffY 1 0 k k = [1, 1, 4, 1, 0] := by
  simp only [abDiffY, List.zipWith, List.cons.injEq, and_true]
  refine ⟨?_, ?_, ?_, ?_, ?_⟩ <;> ring

theorem firstMinIdx_11410 : firstMinIdx [1, 1, 4, 1, 0] = 4 := by
  norm_num [firstMinIdx_cons, firstMinIdx_single, List.getD]

theorem loopY_diag (n : ℤ) (hn : 2 ≤ n) :
    ∀ (f : ℕ) (k : ℤ) (g : Finset (ℤ × ℤ)), 0 ≤ k → k ≤ n - 1 → (n - 1 - k).toNat ≤ f →
      loopY f 1 0 n n k k (n - 1) g =
        g ∪ (Finset.Icc (k + 1) (n - 1)).image (fun t => (t, t)) := by
  intro f
  induction f with
  | zero =>
    intro k g hk0 hk1 hf
    rw [loopY_stop _ _ _ _ _ _ _ _ _ (by omega)]
    rw [Finset.Icc_eq_empty (by omega), Finset.image_empty, Finset.union_empty]
  | succ f ih =>
    intro k g hk0 hk1 hf
    by_cases hk : k < n - 1
    · rw [loopY_advance f 1 0 n n k k (n - 1) (k + 1) (k + 1) g 4 hk
        (by rw [abDiffY_diag]; exact firstMinIdx_11410) rfl rfl]
      rw [ih (k + 1) _ (by omega) (by omega) (by omega)]
      rw [insertCell, Int.emod_eq_of_lt (by omega) (by omega)]
      ext p
      simp only [Finset.mem_union, Finset.mem_insert, Finset.mem_image, Finset.mem_Icc]
      constructor
      · rintro ((rfl | hp) | ⟨t, ⟨ht1, ht2⟩, rfl⟩)
        · exact Or.inr ⟨k + 1, ⟨by omega, by omega⟩, rfl⟩
        · exact Or.inl hp
        · exact Or.inr ⟨t, ⟨by omega, by omega⟩, rfl⟩
      · rintro (hp | ⟨t, ⟨ht1, ht2⟩, rfl⟩)
        · exact Or.inl (Or.inr hp)
        · by_cases ht : t = k + 1
          · subst ht; exact Or.inl (Or.inl rfl)
          · exact Or.inr ⟨t, ⟨by omega, by omega⟩, rfl⟩
    · rw [loopY_stop _ _ _ _ _ _ _ _ _ (by omega)]
      rw [Finset.Icc_eq_empty (by omega), Finset.image_empty, Finset.union_empty]

theorem traceAB_diag (n : ℤ) (hn : 2 ≤ n) :
    traceAB n n (0, 0) (n - 1, n - 1) =
      (Finset.Icc (0 : ℤ) (n - 1)).image (fun t => (t, t)) := by
  have hm : mAB (0, 0) (n - 1, n - 1) = 1 := by
    simp only [mAB]
    rw [div_self (by exact_mod_cast (by omega : (n - 1 - 0 : ℤ) ≠ 0))]
  have hc : cAB (0, 0) (n - 1, n - 1) = 0 := by
    simp only [cAB, hm]
    push_cast
    ring
  simp only [traceAB]
  rw [if_neg (show ¬(0 : ℤ) = n - 1 from by omega)]
  rw [hm, hc]
  rw [if_neg (show ¬|(1 : ℚ)| < 1 from by norm_num)]
  rw [if_pos (show (0 : ℤ) < n - 1 from by omega)]
  dsimp only
  rw [show (0 : ℤ) ⊔ (n - 1) = n - 1 from max_eq_right (by omega)]
  rw [show insertCell n n 0 0 ∅ = {((0 : ℤ), (0 : ℤ))} from by
    rw [insertCell, Int.zero_emod]; rfl]
  rw [loopY_diag n hn (abFuel n n) 0 {((0 : ℤ), (0 : ℤ))} le_rfl (by omega)
    (by simp only [abFuel]; omega)]
  ext p
  simp only [Finset.mem_union, Finset.mem_singleton, Finset.mem_image, Finset.mem_Icc]
  constructor
  · rintro (rfl | ⟨t, ⟨ht1, ht2⟩, rfl⟩)
    · exact ⟨0, ⟨le_rfl, by omega⟩, rfl⟩
    · exact ⟨t, ⟨by omega, by omega⟩, rfl⟩
  · rintro ⟨t, ⟨ht1, ht2⟩, rfl⟩
    by_cases ht : t = 0
    · subst ht; exact Or.inl rfl
    · exact Or.inr ⟨t, ⟨by omega, by omega⟩, rfl⟩

theorem C6_diagonal (n : ℤ) (hn : 2 ≤ n) :
    ∃ g, makeLineAB n n (1, 1) (n, n) = Except.ok g ∧
      g = (Finset.Icc (0 : ℤ) (n - 1)).image (fun t => (t, t)) ∧
      g.card = (max n n).toNat ∧ chainInBoth g := by
  refine ⟨(Finset.Icc (0 : ℤ) (n - 1)).image (fun t => (t, t)), ?_, rfl, ?_, ?_⟩
  · simp only [makeLineAB]
    rw [if_neg (show ¬((1 - 1 : ℤ), (1 - 1 : ℤ)) = ((n - 1 : ℤ), (n - 1 : ℤ)) from by
      rw [Prod.mk.injEq]; omega)]
    rw [if_neg (show ¬((1 - 1 : ℤ) < 0 ∨ (1 - 1 : ℤ) < 0 ∨ (n - 1 : ℤ) < 0 ∨ (n - 1 : ℤ) < 0 ∨
        (1 - 1 : ℤ) > n - 1 ∨ (n - 1 : ℤ) > n - 1 ∨ (1 - 1 : ℤ) > n - 1 ∨ (n - 1 : ℤ) > n - 1)
        from by push_neg; omega)]
    rw [show ((1 - 1 : ℤ), (1 - 1 : ℤ)) = ((0 : ℤ), (0 : ℤ)) from rfl]
    rw [traceAB_diag n hn]
  · rw [Finset.card_image_of_injective _ (fun a b h => (Prod.ext_iff.1 h).1)]
    rw [Int.card_Icc]
    rw [max_self]
    norm_num
  · intro p hp q hq
    simp only [Finset.mem_image, Finset.mem_Icc] at hp hq
    obtain ⟨t, _, rfl⟩ := hp
    obtain ⟨s, _, rfl⟩ := hq
    rcases le_total t s with h | h
    · exact Or.inl ⟨h, h⟩
    · exact Or.inr ⟨h, h⟩

/-- C8 (confirmed): makeLine(3, 3, (1, 1), (3, 1)) in point-to-point mode
marks exactly the 0-based cells (0, 0), (0, 2) and (1, 2), i.e. the 1-based
cells (1, 1), (1, 3) and (2, 3): after the start point, the shallow-gradient
loop stores at indices shifted by (-1, -1), the y index 0 wraps to the last
column, and the endpoint (3, 1) (0-based (2, 0)) is not marked. -/
theorem C8_shifted_write :
    makeLineAB 3 3 (1, 1) (3, 1) = Except.ok ({(0, 0), (0, 2), (1, 2)} : Finset (ℤ × ℤ)) := by
  have e1 : firstMinIdx (abDiffX 0 0 0 0) = 3 := by
    norm_num [abDiffX, firstMinIdx_cons, firstMinIdx_single, List.getD]
  have e2 : firstMinIdx (abDiffX 0 0 1 0) = 3 := by
    norm_num [abDiffX, firstMinIdx_cons, firstMinIdx_single, List.getD]
  simp only [makeLineAB]
  norm_num [Prod.ext_iff]
  simp only [traceAB]
  norm_num [mAB, cAB]
  rw [show abFuel 3 3 = 7 + 1 from rfl]
  rw [loopX_advance 7 0 0 3 3 0 0 2 1 0 _ 3 (by norm_num) e1
    (by norm_num [List.getD]) (by norm_num [List.getD])]
  rw [show (7 : ℕ) = 6 + 1 from rfl]
  rw [loopX_advance 6 0 0 3 3 1 0 2 2 0 _ 3 (by norm_num) e2
    (by norm_num [List.getD]) (by norm_num [List.getD])]
  rw [loopX_stop 6 0 0 3 3 2 0 2 _ (by norm_num)]
  decide

/-- C6 counterexample: makeLine(3, 2, (1, 1), (3, 2)) marks the 0-based cells
(0, 0), (0, 1) and (1, 0) (1-based (1, 1), (1, 2), (2, 1)): the marked set is
not monotone in both axes, because the shallow-gradient loop writes at
(-1, -1)-shifted, wrapped indices. -/
theorem C6_counterexample :
    makeLineAB 3 2 (1, 1) (3, 2) = Except.ok ({(0, 0), (0, 1), (1, 0)} : Finset (ℤ × ℤ)) ∧
      ¬ chainInBoth ({(0, 0), (0, 1), (1, 0)} : Finset (ℤ × ℤ)) := by
  constructor
  · have e1 : firstMinIdx (abDiffX (1 / 2) 0 0 0) = 3 := by
      norm_num [abDiffX, firstMinIdx_cons, firstMinIdx_single, List.getD]
    have e2 : firstMinIdx (abDiffX (1 / 2) 0 1 0) = 4 := by
      norm_num [abDiffX, firstMinIdx_cons, firstMinIdx_single, List.getD]
    simp only [makeLineAB]
    norm_num [Prod.ext_iff]
    simp only [traceAB]
    norm_num [mAB, cAB]
    rw [if_pos (show |(1 : ℚ) / 2| < 1 by
      rw [abs_of_nonneg (by norm_num : (0 : ℚ) ≤ 1 / 2)]; norm_num)]
    rw [show abFuel 3 2 = 6 + 1 from rfl]
    rw [loopX_advance 6 (1 / 2) 0 3 2 0 0 2 1 0 _ 3 (by norm_num) e1
      (by norm_num [List.getD]) (by norm_num [List.getD])]
    rw [show (6 : ℕ) = 5 + 1 from rfl]
    rw [loopX_advance 5 (1 / 2) 0 3 2 1 0 2 2 1 _ 4 (by norm_num) e2
      (by norm_num [List.getD]) (by norm_num [List.getD])]
    rw [loopX_stop 5 (1 / 2) 0 3 2 2 1 2 _ (by norm_num)]
    decide
  · decide

/-- C6 (amended): on the true 45 degree diagonal, makeLine(n, n, (1, 1),
(n, n)) marks exactly the diagonal cells (k, k) for k = 0 .. n-1 (0-based),
so the marked set has max(n, n) = n cells and is monotonically increasing in
both axes.  For Nx different from Ny the marked set need not be monotone (see
the counterexample makeLine(3, 2, (1, 1), (3, 2))). -/
theorem C6_diagonal_line (n : ℤ) (hn : 2 ≤ n) :
    ∃ g, makeLineAB n n (1, 1) (n, n) = Except.ok g ∧
      g = (Finset.Icc (0 : ℤ) (n - 1)).image (fun t => (t, t)) ∧
      g.card = (max n n).toNat ∧ chainInBoth g :=
  C6_diagonal n hn

/-- C6 witness: the diagonal theorem at n = 2. -/
theorem C6_witness :
    ∃ g, makeLineAB 2 2 (1, 1) (2, 2) = Except.ok g ∧
      g = (Finset.Icc (0 : ℤ) (2 - 1)).image (fun t => (t, t)) ∧
      g.card = (max (2 : ℤ) 2).toNat ∧ chainInBoth g :=
  C6_diagonal_line 2 (by norm_num)

/-- C3 (amended, point-to-point part): in point-to-point mode a start point
outside [1, Nx] x [1, Ny] always raises a ValueError before any grid cell is
written (through the endpoint validation, or the identical-points check when
start = end); in angle mode no error is raised at all, see the C3
counterexample. -/
theorem C3_ab_rejects (Nx Ny : ℤ) (s e : ℤ × ℤ)
    (h : s.1 < 1 ∨ s.2 < 1 ∨ s.1 > Nx ∨ s.2 > Ny) :
    ∃ msg, makeLineAB Nx Ny s e = Except.error msg := by
  simp only [makeLineAB]
  split_ifs with h1 h2
  · exact ⟨_, rfl⟩
  · exact ⟨_, rfl⟩
  · exfalso
    push_neg at h2
    omega

/-- C3 witness: the out-of-bounds start (0, 1) on a 3 x 3 grid is rejected by
the point-to-point mode. -/
theorem C3_witness :
    (((0 : ℤ), (1 : ℤ)).1 < 1 ∨ ((0 : ℤ), (1 : ℤ)).2 < 1 ∨
        ((0 : ℤ), (1 : ℤ)).1 > 3 ∨ ((0 : ℤ), (1 : ℤ)).2 > 3) ∧
      ∃ msg, makeLineAB 3 3 (0, 1) (2, 2) = Except.error msg :=
  ⟨by norm_num, C3_ab_rejects 3 3 (0, 1) (2, 2) (by norm_num)⟩

/-- C2 (code bug, failing input): for even N with a double origin the second
half of the concatenation np.arange(0, -N/2 - 1 + 1, 1) is empty (its stop is
below its start and the step is +1), so createPixelDim(4, double) returns
only [-1, 0]: a vector of length 2 with a single zero, not the length-4
vector with two adjacent central zeros described by the claim and by the
double-pixel-centre diagrams in the makePixelMap docstring. -/
theorem C2_double_origin_truncated :
    createPixelDim 4 "double" 1 = [-1, 0] ∧ (createPixelDim 4 "double" 1).length = 2 := by
  constructor <;> decide

/-- C7 (confirmed): makeDisc(5, 5, 3, 3, 1) marks exactly 5 cells: the centre
(0-based (2, 2), 1-based (3, 3)) and its four axis-aligned neighbours. -/
theorem C7_disc_example :
    makeDisc 5 5 3 3 1 = Except.ok ({(2, 2), (1, 2), (3, 2), (2, 1), (2, 3)} : Finset (ℤ × ℤ)) ∧
      ({(2, 2), (1, 2), (3, 2), (2, 1), (2, 3)} : Finset (ℤ × ℤ)).card = 5 := by
  constructor <;> decide

/-- C9 (confirmed): makeDisc rejects every centre with cx >= Nx or cy >= Ny:
the assert compares the 1-based centre against the half-open 0-based range
[0, Nx), so a centre on the last row or column (cx = Nx or cy = Ny), although
inside the grid, fails the check. -/
theorem C9_disc_center_check (Nx Ny cx cy radius : ℤ) (h : Nx ≤ cx ∨ Ny ≤ cy) :
    makeDisc Nx Ny cx cy radius = Except.error "Disc center must be within grid." := by
  simp only [makeDisc]
  rw [if_neg]
  intro hc
  rcases h with h | h
  · by_cases h0 : cx = 0
    · rw [if_pos h0] at hc
      have h1 := hc.1
      omega
    · rw [if_neg h0] at hc
      have h1 := hc.1
      omega
  · by_cases h0 : cy = 0
    · rw [if_pos h0] at hc
      have h1 := hc.2
      omega
    · rw [if_neg h0] at hc
      have h1 := hc.2
      omega

/-- C9 witness: the centre (5, 3) on a 5 x 5 grid (cx = Nx, inside the grid)
is rejected. -/
theorem C9_witness :
    ((5 : ℤ) ≤ 5 ∨ (5 : ℤ) ≤ 3) ∧
      makeDisc 5 5 5 3 1 = Except.error "Disc center must be within grid." :=
  ⟨Or.inl le_rfl, C9_disc_center_check 5 5 5 3 1 (Or.inl le_rfl)⟩

/-- C10 (confirmed): for a single-point partial arc (num_points = 1 and
arc angle q * pi with q < 2, hence not a full circle) makeCartCircle first
decrements num_points to 0 and then divides the arc angle by it: the angle
step is a division by zero, modelled as the error below, so no valid 2 x 1
coordinate array is produced (numpy emits nan coordinates there). -/
theorem C10_single_point_arc (radius : ℚ) (center : ℚ × ℚ) (q : ℚ) (h : q < 2) :
    makeCartCircleAngles radius 1 center q = Except.error "division by zero in angle step" := by
  simp only [makeCartCircleAngles]
  rw [if_neg (ne_of_lt h)]
  norm_num

/-- C10 witness: the half-circle arc (q = 1) with a single point. -/
theorem C10_witness :
    (1 : ℚ) < 2 ∧
      makeCartCircleAngles 1 1 (0, 0) 1 = Except.error "division by zero in angle step" :=
  ⟨by norm_num, C10_single_point_arc 1 (0, 0) 1 (by norm_num)⟩

/-! ## makeLine, angle mode

The angle mode branches on real comparisons (the normalized angle against
multiples of pi) and its loop condition compares a real Euclidean length
against the requested length, so it is modelled as a relation on states: a
termination-inclusive big-step predicate relating a start state and initial
grid to the final grid. -/

/-- Normalization of the angle at the top of the angled branch: angle is
reduced modulo 2 pi (the python float modulo takes the sign of the divisor,
so the representative lies in [0, 2 pi)), then shifted into (-pi, pi]. -/
def NormAngle (a0 r : ℝ) : Prop :=
  ∃ b : ℝ, b = a0 - 2 * Real.pi * ((⌊a0 / (2 * Real.pi)⌋ : ℤ) : ℝ) ∧
    ((b > Real.pi ∧ r = b - 2 * Real.pi) ∨
     (¬ b > Real.pi ∧ b < -Real.pi ∧ r = b + 2 * Real.pi) ∨
     (¬ b > Real.pi ∧ ¬ b < -Real.pi ∧ r = b))

/-- q is the first element of the list attaining the minimal key: either the
head is minimal (ties select the head, as matlab_find returns the first
match), or some later element is strictly smaller and q is the first minimum
of the tail. -/
def FirstMin (key : ℤ × ℤ → ℝ) : List (ℤ × ℤ) → ℤ × ℤ → Prop
  | [], _ => False
  | a :: l, q => ((∀ b ∈ l, key a ≤ key b) ∧ q = a) ∨
      ((∃ b ∈ l, key b < key a) ∧ FirstMin key l q)

/-- One step of a diagonal angled branch: among the three candidate cells the
first one minimizing (poss_y - (m * poss_x + c))^2 is selected. -/
def selStep (m c : ℝ) (cands : ℤ × ℤ → List (ℤ × ℤ)) (p q : ℤ × ℤ) : Prop :=
  FirstMin (fun r => ((r.2 : ℝ) - (m * (r.1 : ℝ) + c)) ^ 2) (cands p) q

/-- Current length of the traced line: the Euclidean distance from the
1-based current point to the 1-based start point (line_length in the
source), compared against the requested length. -/
def LineLenLT (sx sy x y len : ℤ) : Prop :=
  Real.sqrt ((((x - sx) ^ 2 + (y - sy) ^ 2 : ℤ) : ℝ)) < (len : ℝ)

/-- Big-step relation for one angled while loop: while the current length is
below the requested length, compute the next point with Step; if it trips
the branch edge test Brk the loop breaks without writing, otherwise the
point is written at line[x - 1, y - 1] and the loop continues.  The length
used by the loop condition is recomputed from the current point, which
matches the source where line_length is updated from x and y at the end of
each body. -/
inductive AngLoop (Nx Ny sx sy : ℤ) (len : ℤ) (Step : ℤ × ℤ → ℤ × ℤ → Prop)
    (Brk : ℤ × ℤ → Prop) : ℤ × ℤ → Finset (ℤ × ℤ) → Finset (ℤ × ℤ) → Prop
  | exit (p : ℤ × ℤ) (g : Finset (ℤ × ℤ)) :
      ¬ LineLenLT sx sy p.1 p.2 len → AngLoop Nx Ny sx sy len Step Brk p g g
  | brk (p q : ℤ × ℤ) (g : Finset (ℤ × ℤ)) :
      LineLenLT sx sy p.1 p.2 len → Step p q → Brk q →
      AngLoop Nx Ny sx sy len Step Brk p g g
  | step (p q : ℤ × ℤ) (g gout : Finset (ℤ × ℤ)) :
      LineLenLT sx sy p.1 p.2 len → Step p q → ¬ Brk q →
      AngLoop Nx Ny sx sy len Step Brk q (insertCell Nx Ny (q.1 - 1) (q.2 - 1) g) gout →
      AngLoop Nx Ny sx sy len Step Brk p g gout

/-- The angled mode of makeLine: the start point is written unconditionally
at line[x - 1, y - 1] (negative indices wrap), the angle is normalized into
(-pi, pi], and one of the eight branches runs its loop; the branch gradients
m and intercepts c = y0 - m * x0 and the per-branch candidate lists, edge
tests and exact steps follow the source lines 960-1150. -/
def AngledRun (Nx Ny : ℤ) (s : ℤ × ℤ) (angle0 : ℝ) (len : ℤ)
    (gout : Finset (ℤ × ℤ)) : Prop :=
  ∃ a : ℝ, NormAngle angle0 a ∧
    ((|a| = Real.pi ∧
        AngLoop Nx Ny s.1 s.2 len (fun p q => q = (p.1, p.2 + 1)) (fun q => q.2 > Ny)
          s (insertCell Nx Ny (s.1 - 1) (s.2 - 1) ∅) gout) ∨
     (a < Real.pi ∧ a > Real.pi / 2 ∧
        AngLoop Nx Ny s.1 s.2 len
          (selStep (-Real.tan (a - Real.pi / 2))
            ((s.2 : ℝ) - -Real.tan (a - Real.pi / 2) * (s.1 : ℝ))
            (fun p => [(p.1 - 1, p.2), (p.1 - 1, p.2 + 1), (p.1, p.2 + 1)]))
          (fun q => q.1 < 0 ∨ q.2 > Ny - 1)
          s (insertCell Nx Ny (s.1 - 1) (s.2 - 1) ∅) gout) ∨
     (a = Real.pi / 2 ∧
        AngLoop Nx Ny s.1 s.2 len (fun p q => q = (p.1 - 1, p.2)) (fun q => q.1 < 1)
          s (insertCell Nx Ny (s.1 - 1) (s.2 - 1) ∅) gout) ∨
     (a < Real.pi / 2 ∧ a > 0 ∧
        AngLoop Nx Ny s.1 s.2 len
          (selStep (Real.tan (Real.pi / 2 - a))
            ((s.2 : ℝ) - Real.tan (Real.pi / 2 - a) * (s.1 : ℝ))
            (fun p => [(p.1 - 1, p.2), (p.1 - 1, p.2 - 1), (p.1, p.2 - 1)]))
          (fun q => q.1 < 1 ∨ q.2 < 1)
          s (insertCell Nx Ny (s.1 - 1) (s.2 - 1) ∅) gout) ∨
     (a = 0 ∧
        AngLoop Nx Ny s.1 s.2 len (fun p q => q = (p.1, p.2 - 1)) (fun q => q.2 < 1)
          s (insertCell Nx Ny (s.1 - 1) (s.2 - 1) ∅) gout) ∨
     (a < 0 ∧ a > -(Real.pi / 2) ∧
        AngLoop Nx Ny s.1 s.2 len
          (selStep (-Real.tan (Real.pi / 2 + a))
            ((s.2 : ℝ) - -Real.tan (Real.pi / 2 + a) * (s.1 : ℝ))
            (fun p => [(p.1 + 1, p.2), (p.1 + 1, p.2 - 1), (p.1, p.2 - 1)]))
          (fun q => q.1 > Nx ∨ q.2 < 1)
          s (insertCell Nx Ny (s.1 - 1) (s.2 - 1) ∅) gout) ∨
     (a = -(Real.pi / 2) ∧
        AngLoop Nx Ny s.1 s.2 len (fun p q => q = (p.1 + 1, p.2)) (fun q => q.1 > Nx)
          s (insertCell Nx Ny (s.1 - 1) (s.2 - 1) ∅) gout) ∨
     (a < -(Real.pi / 2) ∧ a > -Real.pi ∧
        AngLoop Nx Ny s.1 s.2 len
          (selStep (Real.tan (-a - Real.pi / 2))
            ((s.2 : ℝ) - Real.tan (-a - Real.pi / 2) * (s.1 : ℝ))
            (fun p => [(p.1 + 1, p.2), (p.1 + 1, p.2 + 1), (p.1, p.2 + 1)]))
          (fun q => q.1 > Nx ∨ q.2 > Ny)
          s (insertCell Nx Ny (s.1 - 1) (s.2 - 1) ∅) gout))

/-- makeLine in angle mode, as a relation of the call to its result.  The
out-of-grid check on startpoint at function entry constructs a ValueError
but does not raise it (source line 796), so no error result exists: every
related result is the grid of an angled run. -/
def MakeLineAngled (Nx Ny : ℤ) (s : ℤ × ℤ) (angle : ℝ) (len : ℤ)
    (r : Except String (Finset (ℤ × ℤ))) : Prop :=
  ∃ g, AngledRun Nx Ny s angle len g ∧ r = Except.ok g

/-- pi/2 normalizes to itself. -/
theorem normAngle_pi_div_two : NormAngle (Real.pi / 2) (Real.pi / 2) := by
  have hpi := Real.pi_pos
  have h4 : Real.pi / 2 / (2 * Real.pi) = 1 / 4 := by
    have hne := Real.pi_ne_zero
    field_simp
    ring
  have hf : (⌊Real.pi / 2 / (2 * Real.pi)⌋ : ℤ) = 0 := by
    rw [h4]
    exact Int.floor_eq_zero_iff.2 (by constructor <;> norm_num)
  refine ⟨Real.pi / 2, ?_, Or.inr (Or.inr ⟨by linarith, by linarith, rfl⟩)⟩
  rw [hf]
  push_cast
  ring

/-- pi/2 + pi = 3 pi/2 normalizes to -pi/2. -/
theorem normAngle_three_halves : NormAngle (Real.pi / 2 + Real.pi) (-(Real.pi / 2)) := by
  have hpi := Real.pi_pos
  have h4 : (Real.pi / 2 + Real.pi) / (2 * Real.pi) = 3 / 4 := by
    have hne := Real.pi_ne_zero
    field_simp
    ring
  have hf : (⌊(Real.pi / 2 + Real.pi) / (2 * Real.pi)⌋ : ℤ) = 0 := by
    rw [h4]
    exact Int.floor_eq_zero_iff.2 (by constructor <;> norm_num)
  refine ⟨Real.pi / 2 + Real.pi, ?_, Or.inl ⟨by linarith, by ring⟩⟩
  rw [hf]
  push_cast
  ring

/-- C3 counterexample: in angle mode, the out-of-grid start point (0, 1) on a
3 x 3 grid does not cause a validation failure: the call relates to a
successful result (the start point is written at the wrapped index (2, 0),
then the branch for angle pi/2 breaks at the left edge), refuting the claim
that every out-of-bounds start fails at entry in both modes. -/
theorem C3_counterexample :
    ¬ (∀ r, MakeLineAngled 3 3 (0, 1) (Real.pi / 2) 1 r → ∃ e, r = Except.error e) := by
  intro hall
  have hrun : MakeLineAngled 3 3 (0, 1) (Real.pi / 2) 1 (Except.ok {((2 : ℤ), (0 : ℤ))}) := by
    refine ⟨{((2 : ℤ), (0 : ℤ))}, ⟨Real.pi / 2, normAngle_pi_div_two,
      Or.inr (Or.inr (Or.inl ⟨rfl, ?_⟩))⟩, rfl⟩
    rw [show insertCell 3 3 ((((0 : ℤ), (1 : ℤ)) : ℤ × ℤ).1 - 1)
        ((((0 : ℤ), (1 : ℤ)) : ℤ × ℤ).2 - 1) ∅ = {((2 : ℤ), (0 : ℤ))} from by decide]
    exact AngLoop.brk (0, 1) (0 - 1, 1) _
      (by norm_num [LineLenLT, Real.sqrt_zero]) rfl (by norm_num)
  obtain ⟨e, he⟩ := hall _ hrun
  exact Except.noConfusion he

/-! ## makeArc, infinite radius -/

/-- makeArc specialized to radius = infinity, as a relation of the call to
its result.  The validations appear in source order; the two checks that
mention the radius (radius <= 0, and diameter > 2 * radius) are omitted
because they can never fire at an infinite radius.  When all the checks
pass, the source draws two angled lines from arc_pos with half-length
(diameter - 1) // 2, at ang = arctan((fx - ax) / (fy - ay)) + pi/2 and at
ang + pi, and returns their cell-wise logical or (the union of the two cell
sets). -/
def MakeArcInfRel (gs ap : ℤ × ℤ) (diameter : ℤ) (fp : ℤ × ℤ)
    (r : Except String (Finset (ℤ × ℤ))) : Prop :=
  if gs.1 < 1 ∨ gs.2 < 1 then r = Except.error "The grid size must be positive."
  else if diameter ≤ 0 then r = Except.error "The diameter must be positive."
  else if ap.1 < 1 ∨ ap.2 < 1 ∨ ap.1 > gs.1 ∨ ap.2 > gs.2 then
    r = Except.error "The centre of the arc must be within the grid."
  else if diameter % 2 ≠ 1 then
    r = Except.error "The diameter must be an odd number of grid points."
  else if ap = fp then r = Except.error "The focus_pos must be different to the arc_pos."
  else
    ∃ ang : ℝ,
      ang = Real.arctan (((fp.1 - ap.1 : ℤ) : ℝ) / ((fp.2 - ap.2 : ℤ) : ℝ)) + Real.pi / 2 ∧
      ∃ g1 g2 : Finset (ℤ × ℤ),
        AngledRun gs.1 gs.2 ap ang ((diameter - 1) / 2) g1 ∧
        AngledRun gs.1 gs.2 ap (ang + Real.pi) ((diameter - 1) / 2) g2 ∧
        r = Except.ok (g1 ∪ g2)

/-- The property claimed by the specification for the infinite radius case,
in its own words: the produced grid is the cell-wise logical or of two
makeLine angle-mode calls from arc_pos, at angles ang and ang + pi, where
ang is the focus direction rotated by 90 degrees, each with length
(diameter - 1) // 2. -/
def ArcInfSpecRel (gs ap : ℤ × ℤ) (diameter : ℤ) (fp : ℤ × ℤ)
    (g : Finset (ℤ × ℤ)) : Prop :=
  ∃ ang : ℝ,
    ang = Real.arctan (((fp.1 - ap.1 : ℤ) : ℝ) / ((fp.2 - ap.2 : ℤ) : ℝ)) + Real.pi / 2 ∧
    ∃ g1 g2 : Finset (ℤ × ℤ),
      MakeLineAngled gs.1 gs.2 ap ang ((diameter - 1) / 2) (Except.ok g1) ∧
      MakeLineAngled gs.1 gs.2 ap (ang + Real.pi) ((diameter - 1) / 2) (Except.ok g2) ∧
      g = g1 ∪ g2

/-- C4 (confirmed): whenever makeArc with infinite radius returns a grid, the
grid is exactly the cell-wise logical or of the two angle-mode makeLine
calls described by the specification. -/
theorem C4_arc_inf_or (gs ap : ℤ × ℤ) (diameter : ℤ) (fp : ℤ × ℤ) (g : Finset (ℤ × ℤ))
    (h : MakeArcInfRel gs ap diameter fp (Except.ok g)) :
    ArcInfSpecRel gs ap diameter fp g := by
  unfold MakeArcInfRel at h
  split_ifs at h
  obtain ⟨ang, hang, g1, g2, h1, h2, he⟩ := h
  rw [Except.ok.injEq] at he
  exact ⟨ang, hang, g1, g2, ⟨g1, h1, rfl⟩, ⟨g2, h2, rfl⟩, he⟩

/-- The trivial angled run at angle pi/2 with length 0 from (2, 2) on a
3 x 3 grid: only the start point, written at (1, 1). -/
theorem angledRun_ex_pos :
    AngledRun 3 3 (2, 2) (Real.pi / 2) 0 {((1 : ℤ), (1 : ℤ))} := by
  refine ⟨Real.pi / 2, normAngle_pi_div_two, Or.inr (Or.inr (Or.inl ⟨rfl, ?_⟩))⟩
  rw [show insertCell 3 3 ((((2 : ℤ), (2 : ℤ)) : ℤ × ℤ).1 - 1)
      ((((2 : ℤ), (2 : ℤ)) : ℤ × ℤ).2 - 1) ∅ = {((1 : ℤ), (1 : ℤ))} from by decide]
  exact AngLoop.exit (2, 2) _ (by norm_num [LineLenLT, Real.sqrt_zero])

/-- The trivial angled run at angle pi/2 + pi with length 0 from (2, 2): the
normalized angle is -pi/2, and again only the start point is written. -/
theorem angledRun_ex_neg :
    AngledRun 3 3 (2, 2) (Real.pi / 2 + Real.pi) 0 {((1 : ℤ), (1 : ℤ))} := by
  refine ⟨-(Real.pi / 2), normAngle_three_halves,
    Or.inr (Or.inr (Or.inr (Or.inr (Or.inr (Or.inr (Or.inl ⟨rfl, ?_⟩))))))⟩
  rw [show insertCell 3 3 ((((2 : ℤ), (2 : ℤ)) : ℤ × ℤ).1 - 1)
      ((((2 : ℤ), (2 : ℤ)) : ℤ × ℤ).2 - 1) ∅ = {((1 : ℤ), (1 : ℤ))} from by decide]
  exact AngLoop.exit (2, 2) _ (by norm_num [LineLenLT, Real.sqrt_zero])

/-- A concrete successful makeArc call at infinite radius: 3 x 3 grid, arc
centre (2, 2), diameter 1, focus (2, 3); both half-lines have length 0 and
the produced grid is the single cell (1, 1). -/
theorem makeArcInf_ex :
    MakeArcInfRel (3, 3) (2, 2) 1 (2, 3) (Except.ok {((1 : ℤ), (1 : ℤ))}) := by
  unfold MakeArcInfRel
  norm_num
  exact ⟨{((1 : ℤ), (1 : ℤ))}, angledRun_ex_pos, {((1 : ℤ), (1 : ℤ))}, angledRun_ex_neg, by simp⟩

/-- C4 witness: the specification property holds at the concrete call above,
obtained by applying the theorem to it. -/
theorem C4_witness : ArcInfSpecRel (3, 3) (2, 2) 1 (2, 3) {((1 : ℤ), (1 : ℤ))} :=
  C4_arc_inf_or (3, 3) (2, 2) 1 (2, 3) {((1 : ℤ), (1 : ℤ))} makeArcInf_ex
